import Mathlib

/-!
Verification of the CopyrightGenerator metadata collection-and-merge pipeline.

The Python source (`copyright_generator.py`) is shallowly embedded here:
strings are lists of characters, the character-scanning loops become folds
or structural recursions, the insertion-ordered dictionary becomes an
association list with Python-dict insertion semantics, and fallible
operations (network fetch, dictionary key lookup) return `Except`.
-/

namespace CopyrightGenerator

/-! ## String helpers mirroring the Python string methods used by the source -/

/-- ASCII whitespace, as recognised by Python's `str.strip`. -/
def isSpaceChar (c : Char) : Bool :=
  c = ' ' || c = '\t' || c = '\n' || c = '\r' || c = '\x0b' || c = '\x0c'

/-- Python `str.lstrip()`. -/
def lstripChars (l : List Char) : List Char := l.dropWhile isSpaceChar

/-- Python `str.strip()`: drop whitespace from both ends. -/
def pyStrip (l : List Char) : List Char :=
  ((lstripChars l).reverse.dropWhile isSpaceChar).reverse

/-- Python `str.lower()` (ASCII range, which is all the source compares). -/
def lowerChars (l : List Char) : List Char := l.map Char.toLower

/-- Python `str.startswith(p)`. -/
def startsWithChars (p l : List Char) : Bool := l.take p.length == p

/-- Number of occurrences of a character in a string. -/
def countChar (sep : Char) : List Char → Nat
  | [] => 0
  | c :: rest => (if c = sep then 1 else 0) + countChar sep rest

/-- Worker for Python `str.split(sep, maxsplit)`: `cur` is the reversed
current piece, `maxs` the number of splits still allowed. -/
def splitCharAux (sep : Char) : Nat → List Char → List Char → List (List Char)
  | _, cur, [] => [cur.reverse]
  | maxs, cur, c :: rest =>
    if c = sep then
      if maxs = 0 then splitCharAux sep maxs (c :: cur) rest
      else cur.reverse :: splitCharAux sep (maxs - 1) [] rest
    else splitCharAux sep maxs (c :: cur) rest

/-- Python `str.split(sep, maxsplit)` for a one-character separator. -/
def pySplitChar (sep : Char) (maxs : Nat) (l : List Char) : List (List Char) :=
  splitCharAux sep maxs [] l

/-- Python `str.replace('\\n', '\n')`: left-to-right, non-overlapping
replacement of the two-character escape by a real newline. -/
def replN : List Char → List Char
  | [] => []
  | [c] => [c]
  | c1 :: c2 :: rest =>
    if c1 = '\\' && c2 = 'n' then '\n' :: replN rest
    else c1 :: replN (c2 :: rest)

/-! ## `parse_license_file_copyright_lines` (source lines 130–141)

The source iterates the lines of the license file; for each line whose
stripped, lowered form starts with `copyright` it splits the line on `)`
with `maxsplit = 2` and, when that yields exactly two pieces, keeps the
stripped last piece. -/

def parse_license_file_copyright_lines : List (List Char) → List (List Char)
  | [] => []
  | line :: rest =>
    (if startsWithChars ("copyright").data (lowerChars (pyStrip line)) then
      (if (pySplitChar ')' 2 line).length = 2 then
        [pyStrip ((pySplitChar ')' 2 line).getLastD [])]
      else [])
    else []) ++ parse_license_file_copyright_lines rest

/-! Specification-side description of the same filter: a line contributes
exactly when it starts (stripped, lowered) with `copyright` and contains
exactly one `)`; its contribution is the stripped remainder after that `)`. -/

/-- The remainder of the line strictly after its first `)`. -/
def afterFirstParen (l : List Char) : List Char :=
  (l.dropWhile (fun c => c != ')')).tail

/-- A line that the extraction keeps: stripped+lowered form starts with
`copyright`, and the line has exactly one `)`. -/
def isCopyrightFragmentLine (l : List Char) : Bool :=
  startsWithChars ("copyright").data (lowerChars (pyStrip l)) &&
    (countChar ')' l == 1)

/-- The fragment the extraction keeps for such a line. -/
def extractedFragment (l : List Char) : List Char := pyStrip (afterFirstParen l)

theorem splitCharAux_of_countChar_zero (sep : Char) (l : List Char) :
    ∀ (maxs : Nat) (cur : List Char), countChar sep l = 0 →
      splitCharAux sep maxs cur l = [cur.reverse ++ l] := by
  induction l with
  | nil => intro maxs cur _; simp [splitCharAux]
  | cons c rest ih =>
    intro maxs cur h
    simp only [countChar] at h
    by_cases hc : c = sep
    · simp [hc] at h
    · simp only [splitCharAux, if_neg hc]
      rw [ih maxs (c :: cur) (by omega)]
      simp

theorem splitCharAux_length (sep : Char) (l : List Char) :
    ∀ (maxs : Nat) (cur : List Char),
      (splitCharAux sep maxs cur l).length = min (countChar sep l) maxs + 1 := by
  induction l with
  | nil => intro maxs cur; simp [splitCharAux, countChar]
  | cons c rest ih =>
    intro maxs cur
    by_cases hc : c = sep
    · simp only [splitCharAux, if_pos hc, countChar, if_pos hc]
      by_cases hm : maxs = 0
      · subst hm
        rw [if_pos rfl, ih 0 (c :: cur)]
        omega
      · rw [if_neg hm]
        simp only [List.length_cons]
        rw [ih (maxs - 1) []]
        omega
    · simp only [splitCharAux, if_neg hc, countChar, if_neg hc]
      rw [ih maxs (c :: cur)]
      omega

theorem splitCharAux_of_countChar_one (sep : Char) (l : List Char) :
    ∀ (cur : List Char), countChar sep l = 1 →
      splitCharAux sep 2 cur l =
        [cur.reverse ++ l.takeWhile (fun c => c != sep),
          (l.dropWhile (fun c => c != sep)).tail] := by
  induction l with
  | nil => intro cur h; simp [countChar] at h
  | cons c rest ih =>
    intro cur h
    simp only [countChar] at h
    by_cases hc : c = sep
    · simp only [if_pos hc] at h
      have hrest : countChar sep rest = 0 := by omega
      simp only [splitCharAux, if_pos hc]
      norm_num
      rw [splitCharAux_of_countChar_zero sep rest 1 [] hrest]
      subst hc
      simp [List.takeWhile, List.dropWhile]
    · simp only [if_neg hc] at h
      simp only [splitCharAux, if_neg hc]
      rw [ih (c :: cur) (by omega)]
      have hne : (c != sep) = true := by simp [hc]
      simp [List.takeWhile, List.dropWhile, hne]

/-- The extraction keeps a line iff it passes `isCopyrightFragmentLine`,
and then contributes `extractedFragment` of it, in line order. -/
theorem parse_license_file_copyright_lines_eq (lines : List (List Char)) :
    parse_license_file_copyright_lines lines =
      (lines.filter isCopyrightFragmentLine).map extractedFragment := by
  induction lines with
  | nil => simp [parse_license_file_copyright_lines]
  | cons line rest ih =>
    simp only [parse_license_file_copyright_lines, ih]
    by_cases hstart :
        startsWithChars ("copyright").data (lowerChars (pyStrip line)) = true
    · rw [if_pos hstart]
      have hlen : (pySplitChar ')' 2 line).length = min (countChar ')' line) 2 + 1 :=
        splitCharAux_length ')' line 2 []
      by_cases hcount : countChar ')' line = 1
      · have h2 : (pySplitChar ')' 2 line).length = 2 := by omega
        rw [if_pos h2]
        have hsplit := splitCharAux_of_countChar_one ')' line [] hcount
        simp only [pySplitChar, hsplit]
        have hfilt : isCopyrightFragmentLine line = true := by
          simp [isCopyrightFragmentLine, hstart, hcount]
        simp [List.filter, hfilt, extractedFragment, afterFirstParen,
          List.getLastD]
      · have h2 : (pySplitChar ')' 2 line).length ≠ 2 := by omega
        rw [if_neg h2]
        have hfilt : isCopyrightFragmentLine line = false := by
          simp [isCopyrightFragmentLine, hcount]
        simp [List.filter, hfilt]
    · rw [if_neg hstart]
      have hfilt : isCopyrightFragmentLine line = false := by
        simp [isCopyrightFragmentLine,
          Bool.eq_false_iff.mpr hstart]
      simp [List.filter, hfilt]

/-! ## `parse_copyright_years` (source lines 143–175)

The source scans the string character by character (after replacing the
`\n` escape by a real newline), accumulating a candidate digit token;
a token is flushed to the year list at a non-digit boundary iff it has
exactly 4 digits, and a run longer than 4 digits poisons the candidate. -/

/-- The loop state of `parse_copyright_years`: `can_read_year_number`,
`current_year_number`, and the accumulated `year_string_list`. -/
structure YearScanState where
  canRead : Bool
  current : List Char
  years : List (List Char)
deriving DecidableEq

/-- One character step of the `parse_copyright_years` scanning loop. -/
def yearStep (st : YearScanState) (c : Char) : YearScanState :=
  if c.isDigit then
    let can := if st.current.length > 4 then false else st.canRead
    { canRead := can,
      current := if can then st.current ++ [c] else st.current,
      years := st.years }
  else
    { canRead := true, current := [],
      years := if st.current.length = 4 then st.years ++ [st.current]
        else st.years }

/-- The year tokens accepted by the scanning loop of `parse_copyright_years`. -/
def yearTokens (s : List Char) : List (List Char) :=
  ((replN s).foldl yearStep ⟨true, [], []⟩).years

/-- Python `int(...)` on a digit token. -/
def yearVal (y : List Char) : Nat :=
  y.foldl (fun n c => 10 * n + (c.toNat - 48)) 0

/-- The validity loop of `parse_copyright_years`: every accepted year must
lie in `[1900, currentYear]`; the loop breaks at the first failure. -/
def allYearsValidLoop (currentYear : Nat) : List (List Char) → Bool
  | [] => true
  | y :: rest =>
    if yearVal y < 1900 || currentYear < yearVal y then false
    else allYearsValidLoop currentYear rest

/-- `parse_copyright_years`, with the run's current calendar year supplied
as a parameter (the source reads it from the clock). -/
def parse_copyright_years (currentYear : Nat) (s : List Char) :
    List (List Char) × Bool :=
  (yearTokens s, allYearsValidLoop currentYear (yearTokens s))

/-! Specification-side description: the maximal digit runs of the input
that are terminated by a non-digit character (a run still open at the end
of the input is never flushed). -/

/-- Maximal digit runs terminated by a non-digit; `cur` is the run read so
far. A run that reaches the end of the input without a terminator is
dropped. -/
def digitRunsAux (cur : List Char) : List Char → List (List Char)
  | [] => []
  | c :: rest =>
    if c.isDigit then digitRunsAux (cur ++ [c]) rest
    else if cur = [] then digitRunsAux [] rest
    else cur :: digitRunsAux [] rest

/-- All maximal terminated digit runs of the (escape-normalised) input. -/
def digitRuns (s : List Char) : List (List Char) :=
  digitRunsAux [] (replN s)

theorem yearFold_characterisation (rest : List Char) :
    ∀ (cur : List Char) (acc : List (List Char)),
      (∀ c ∈ cur, c.isDigit = true) →
      (rest.foldl yearStep
          ⟨decide (cur.length ≤ 5), cur.take 5, acc⟩).years
        = acc ++ (digitRunsAux cur rest).filter (fun r => r.length == 4) := by
  induction rest with
  | nil => intro cur acc _; simp [digitRunsAux]
  | cons c rest ih =>
    intro cur acc hcur
    by_cases hd : c.isDigit = true
    · have hstep : yearStep ⟨decide (cur.length ≤ 5), cur.take 5, acc⟩ c
          = ⟨decide ((cur ++ [c]).length ≤ 5), (cur ++ [c]).take 5, acc⟩ := by
        simp only [yearStep, if_pos hd]
        by_cases h5 : cur.length ≤ 4
        · have hlt : ¬ (cur.take 5).length > 4 := by
            simp [List.length_take]; omega
          have hc5 : decide (cur.length ≤ 5) = true := by
            simp; omega
          have hc5' : decide ((cur ++ [c]).length ≤ 5) = true := by
            simp; omega
          simp only [if_neg hlt, hc5, hc5', if_pos rfl]
          have : (cur ++ [c]).take 5 = cur.take 5 ++ [c] := by
            rw [List.take_append_eq_append_take]
            simp [List.take_of_length_le (l := cur) (by omega : cur.length ≤ 5)]
            omega
          simp [this]
        · have hge : (cur.take 5).length > 4 := by
            simp [List.length_take]; omega
          have hc5' : decide ((cur ++ [c]).length ≤ 5) = false := by
            simp; omega
          simp only [if_pos hge, hc5']
          simp only [Bool.false_eq_true, if_neg (by simp : ¬ (False : Prop))]
          rw [List.take_append_of_le_length (by omega : 5 ≤ cur.length)]

      rw [List.foldl_cons, hstep]
      rw [ih (cur ++ [c]) acc (by
        intro x hx
        rcases List.mem_append.mp hx with h | h
        · exact hcur x h
        · simp at h; subst h; exact hd)]
      simp [digitRunsAux, hd]
    · have hstep : yearStep ⟨decide (cur.length ≤ 5), cur.take 5, acc⟩ c
          = ⟨decide (([] : List Char).length ≤ 5), ([] : List Char).take 5,
              if cur.length = 4 then acc ++ [cur] else acc⟩ := by
        simp only [yearStep, if_neg hd]
        by_cases h4 : cur.length = 4
        · have : (cur.take 5).length = 4 := by simp [List.length_take]; omega
          simp [this, h4, List.take_of_length_le (l := cur) (by omega : cur.length ≤ 5)]
        · have : (cur.take 5).length ≠ 4 := by
            simp [List.length_take]; omega
          simp [this, h4]
          omega
      rw [List.foldl_cons, hstep]
      rw [ih [] (if cur.length = 4 then acc ++ [cur] else acc) (by simp)]
      simp only [digitRunsAux, if_neg hd]
      by_cases hnil : cur = []
      · subst hnil; simp
      · rw [if_neg hnil]
        by_cases h4 : cur.length = 4
        · simp [List.filter, h4]
        · have : (cur.length == 4) = false := by simp [h4]
          simp [List.filter, this, h4]

/-- The accepted year tokens are exactly the maximal terminated digit runs
of length exactly 4. -/
theorem yearTokens_eq_digitRuns (s : List Char) :
    yearTokens s = (digitRuns s).filter (fun r => r.length == 4) := by
  have h := yearFold_characterisation (replN s) [] [] (by simp)
  simpa [yearTokens, digitRuns] using h

/-- The validity loop (with its early break) agrees with checking every
accepted year against the `[1900, currentYear]` window. -/
theorem allYearsValidLoop_eq_all (currentYear : Nat) (ys : List (List Char)) :
    allYearsValidLoop currentYear ys
      = ys.all (fun y => decide (1900 ≤ yearVal y ∧ yearVal y ≤ currentYear)) := by
  induction ys with
  | nil => simp [allYearsValidLoop]
  | cons y rest ih =>
    simp only [allYearsValidLoop, List.all_cons, ih]
    by_cases h : yearVal y < 1900 || currentYear < yearVal y
    · rw [if_pos h]
      simp only [Bool.or_eq_true, decide_eq_true_eq] at h
      have : ¬ (1900 ≤ yearVal y ∧ yearVal y ≤ currentYear) := by omega
      simp [this]
    · rw [if_neg h]
      simp only [Bool.or_eq_true, decide_eq_true_eq, not_or, not_lt] at h
      have : (1900 ≤ yearVal y ∧ yearVal y ≤ currentYear) := by omega
      simp [this]

/-- Scanning digit characters never flushes a token to the year list. -/
theorem foldl_yearStep_digits (run : List Char) :
    ∀ st : YearScanState, (∀ c ∈ run, c.isDigit = true) →
      (run.foldl yearStep st).years = st.years := by
  induction run with
  | nil => intro st _; rfl
  | cons c rest ih =>
    intro st h
    have hd : c.isDigit = true := h c (by simp)
    rw [List.foldl_cons, ih _ (fun x hx => h x (by simp [hx]))]
    simp [yearStep, hd]

/-- A digit-only string passes through the escape normalisation unchanged. -/
theorem replN_digits (l : List Char) (h : ∀ c ∈ l, c.isDigit = true) :
    replN l = l := by
  induction l using replN.induct with
  | case1 => rfl
  | case2 c => rfl
  | case3 c1 c2 rest hesc ih =>
    exfalso
    simp only [Bool.and_eq_true, decide_eq_true_eq] at hesc
    have := h c2 (by simp)
    rw [hesc.2] at this
    simp [Char.isDigit] at this
  | case4 c1 c2 rest hesc ih =>
    have hih := ih (fun x hx => h x (by simp at hx ⊢; tauto))
    simp only [replN, if_neg hesc, hih]

/-- Appending a digit-only suffix commutes with escape normalisation. -/
theorem replN_append_digits (run : List Char) (hrun : ∀ c ∈ run, c.isDigit = true)
    (s : List Char) : replN (s ++ run) = replN s ++ run := by
  induction s using replN.induct with
  | case1 => simpa using replN_digits run hrun
  | case2 c =>
    cases hr : run with
    | nil => simp [hr]
    | cons r rest =>
      have hd : r.isDigit = true := by
        apply hrun; rw [hr]; simp
      have hne : ¬ (c = '\\' && r = 'n') = true := by
        intro hcontra
        simp only [Bool.and_eq_true, decide_eq_true_eq] at hcontra
        rw [hcontra.2] at hd
        simp [Char.isDigit] at hd
      simp only [List.cons_append, List.nil_append, replN, if_neg hne]
      have := replN_digits run hrun
      rw [hr] at this
      simp [this]
  | case3 c1 c2 rest hesc ih =>
    simp only [List.cons_append, replN, if_pos hesc, List.append_eq, ih]
  | case4 c1 c2 rest hesc ih =>
    simp only [List.cons_append, replN, if_neg hesc, List.append_eq]
    rw [show c2 :: (rest ++ run) = (c2 :: rest) ++ run from rfl, ih]

/-- A digit run that ends the input is never flushed to the year list. -/
theorem yearTokens_append_digits (s run : List Char)
    (hrun : ∀ c ∈ run, c.isDigit = true) :
    yearTokens (s ++ run) = yearTokens s := by
  simp only [yearTokens, replN_append_digits run hrun s, List.foldl_append]
  exact foldl_yearStep_digits run _ hrun

/-! ## NuGet `Copyright` field cleanup (source lines 461–473)

The source runs `project_dictionary["Copyright"].replace("Copyright", "")`,
strips the result, then copies characters starting from the first
alphanumeric character (tracked by the `found_alpha_character` flag). -/

/-- Python `str.replace(pat, "")` for the non-empty pattern `p :: ps`: one
left-to-right pass removing non-overlapping occurrences. The fuel argument
only bounds the recursion depth; it starts at the string length, which the
per-step consumption of at least one character never exhausts. -/
def removeAllFuel (p : Char) (ps : List Char) : Nat → List Char → List Char
  | 0, l => l
  | _ + 1, [] => []
  | fuel + 1, c :: rest =>
    if startsWithChars (p :: ps) (c :: rest) then
      removeAllFuel p ps fuel (rest.drop ps.length)
    else c :: removeAllFuel p ps fuel rest

/-- Python `str.replace(pat, "")` for the non-empty pattern `p :: ps`. -/
def removeAllPat (p : Char) (ps : List Char) (l : List Char) : List Char :=
  removeAllFuel p ps l.length l

/-- Python `character.isalpha() or character.isdigit()` (ASCII range). -/
def isAlnumChar (c : Char) : Bool := c.isAlpha || c.isDigit

/-- The `found_alpha_character` copying loop of the NuGet handler. -/
def keepFromAlphaAux (found : Bool) : List Char → List Char
  | [] => []
  | c :: rest =>
    let found2 := if !found && isAlnumChar c then true else found
    (if found2 then [c] else []) ++ keepFromAlphaAux found2 rest

/-- The whole NuGet `Copyright` field cleanup: remove every occurrence of
the literal `Copyright`, strip, then keep from the first alphanumeric. -/
def nugetCleanCopyright (s : List Char) : List Char :=
  keepFromAlphaAux false (pyStrip (removeAllPat 'C' (("opyright").data) s))

/-- The transformation claim C3 describes: remove ONE leading literal
`Copyright` token, then drop the leading non-alphanumeric characters,
preserving the rest of the string unchanged. -/
def claimedNugetClean (s : List Char) : List Char :=
  (if startsWithChars (("Copyright").data) s
    then s.drop (("Copyright").data).length else s).dropWhile
      (fun c => !(isAlnumChar c))

/-- Once the flag is set the copying loop keeps every character. -/
theorem keepFromAlphaAux_true (l : List Char) : keepFromAlphaAux true l = l := by
  induction l with
  | nil => rfl
  | cons c rest ih => simp [keepFromAlphaAux, ih]

/-- Before the flag is set the copying loop is exactly `dropWhile`
non-alphanumeric. -/
theorem keepFromAlphaAux_false (l : List Char) :
    keepFromAlphaAux false l = l.dropWhile (fun c => !(isAlnumChar c)) := by
  induction l with
  | nil => rfl
  | cons c rest ih =>
    by_cases h : isAlnumChar c = true
    · simp [keepFromAlphaAux, h, keepFromAlphaAux_true, List.dropWhile]
    · have h' : isAlnumChar c = false := by
        cases hc : isAlnumChar c
        · rfl
        · exact absurd hc h
      simp [keepFromAlphaAux, h', List.dropWhile, ih]

/-! ## Serializer: the per-entry `Copyright:` line (source lines 596–618) -/

/-- The copyright-relevant output of one serialized stanza: the rendered
`Copyright:` line and the two diagnostics of source lines 598 and 602. -/
structure RenderedCopyright where
  line : List Char
  warnNoAuthor : Bool
  warnNoYearNorAuthor : Bool
deriving DecidableEq

/-- Source lines 596–618: author defaulting, the two warnings, and the
precedence copyright / author_year / constructed line. Mirrors the source
statement order: the author default (line 599) happens before the
no-year-nor-author check (line 601). -/
def renderEntryCopyright (projectName : List Char)
    (projectYear projectAuthor projectAuthorYear projectCopyright :
      Option (List Char)) : RenderedCopyright :=
  let author2 :=
    if projectCopyright = none ∧ projectAuthorYear = none ∧ projectAuthor = none
    then some projectName else projectAuthor
  let warnA : Bool :=
    decide (projectCopyright = none ∧ projectAuthorYear = none ∧
      projectAuthor = none)
  let warnY : Bool :=
    decide (projectCopyright = none ∧ projectAuthorYear = none ∧
      projectYear = none ∧ author2 = none)
  let line :=
    match projectCopyright with
    | some c =>
      (if startsWithChars (("Copyright: ").data) c then []
        else ("Copyright: ").data) ++ replN c
    | none =>
      match projectAuthorYear with
      | some ay => ("Copyright: ").data ++ replN ay
      | none =>
        ("Copyright:").data
          ++ (match projectYear with | some y => ' ' :: y | none => [])
          ++ (match author2 with | some a => ' ' :: a | none => [])
  ⟨line, warnA, warnY⟩

/-! ## The Merge Store (source lines 260, 563)

`license_meta_file_dictionary` is a Python 3.7+ `dict`: an
insertion-ordered mapping. Assigning to a present key updates the value in
place (the key keeps its original position); a new key is appended. -/

/-- The dataclass `CopyrightMetadataFile` (source lines 91–99). -/
structure CopyrightMetadataFile where
  name : List Char
  author : Option (List Char)
  license : List Char
  year : Option (List Char)
  author_year : Option (List Char)
  copyright : Option (List Char)
deriving DecidableEq, Inhabited

/-- A merge-store value: an inline entry or a reference to an on-disk
override meta file (`Dict[Path, Path | CopyrightMetadataFile]`). -/
inductive MergeValue where
  | inlineEntry : CopyrightMetadataFile → MergeValue
  | metaFileRef : List Char → MergeValue
deriving DecidableEq, Inhabited

/-- The merge store, keyed by license-file path, in insertion order. -/
abbrev MergeStore := List (List Char × MergeValue)

/-- Python dict assignment `d[k] = v`: a present key keeps its position and
gets the new value; a new key is appended at the end. -/
def storeInsert (store : MergeStore) (k : List Char) (v : MergeValue) :
    MergeStore :=
  if k ∈ store.map Prod.fst then
    store.map (fun p => if p.1 = k then (k, v) else p)
  else store ++ [(k, v)]

/-- The iteration-order key list of the store. -/
def storeKeys (store : MergeStore) : List (List Char) := store.map Prod.fst

/-- Python dict lookup `d[k]` (first — and, with unique keys, only —
binding of `k`). -/
def storeLookup (k : List Char) : MergeStore → Option MergeValue
  | [] => none
  | p :: rest => if p.1 = k then some p.2 else storeLookup k rest

/-- A whole sequence of insertions into the store, starting empty. -/
def storeInsertAll (ops : List (List Char × MergeValue)) : MergeStore :=
  ops.foldl (fun st p => storeInsert st p.1 p.2) []

/-! ## The thirdparty folder work-list loop (source lines 492–545) -/

/-- A thirdparty folder as the scanner observes it: whether the folder and
its `.copyright_meta` file exist, the URL values of its `license_urls`
section, the meta file path, and the license file the name scan finds. -/
structure ThirdpartyFolder where
  folderPresent : Bool
  metaFilePresent : Bool
  licenseUrls : List (List Char)
  metaFilePath : List Char
  licenseFilePath : Option (List Char)
deriving DecidableEq

/-- Download every URL of the `license_urls` section in order. The source
wraps none of these calls in an exception handler, so the first failure
propagates (source lines 504–527). -/
def fetchAllUrls (fetch : List Char → Except (List Char) Unit) :
    List (List Char) → Except (List Char) Unit
  | [] => .ok ()
  | u :: rest =>
    match fetch u with
    | .error e => .error e
    | .ok _ => fetchAllUrls fetch rest

/-- The body of `while len(folder_path_list) > 0`, applied to the already
reversed work list (the source pops from the END of the list). A fetch
failure is uncaught and aborts the whole loop. -/
def processFolderLoop (fetch : List Char → Except (List Char) Unit) :
    MergeStore → List ThirdpartyFolder → Except (List Char) MergeStore
  | store, [] => .ok store
  | store, f :: rest =>
    if f.folderPresent = false then processFolderLoop fetch store rest
    else if f.metaFilePresent = false then processFolderLoop fetch store rest
    else
      match fetchAllUrls fetch f.licenseUrls with
      | .error e => .error e
      | .ok _ =>
        match f.licenseFilePath with
        | some lf =>
          processFolderLoop fetch
            (storeInsert store lf (.metaFileRef f.metaFilePath)) rest
        | none => processFolderLoop fetch store rest

/-- The thirdparty folder scan: the work list is consumed from the end. -/
def processFolders (fetch : List Char → Except (List Char) Unit)
    (store : MergeStore) (folders : List ThirdpartyFolder) :
    Except (List Char) MergeStore :=
  processFolderLoop fetch store folders.reverse

/-! ## The pip-licenses collector loop (source lines 355–367) -/

/-- One element of the pip-licenses JSON output list. -/
structure PipProject where
  nameValue : List Char
  authorValue : Option (List Char)
  licenseValue : List Char
  licenseFileValue : Option (List Char)
deriving DecidableEq

/-- Worker for Python `str.split(pat)` with a non-empty pattern `p :: ps`
(all occurrences, no maxsplit). -/
def splitOnPatAux (p : Char) (ps : List Char) (cur : List Char) :
    List Char → List (List Char)
  | [] => [cur.reverse]
  | c :: rest =>
    if startsWithChars (p :: ps) (c :: rest) then
      cur.reverse :: splitOnPatAux p ps [] (rest.drop ps.length)
    else splitOnPatAux p ps (c :: cur) rest
termination_by l => l.length
decreasing_by
  · simp [List.length_drop]; omega
  · simp

/-- Source line 365: `"site-packages" +
project_dictionary["LicenseFile"].split("site-packages")[-1]`. -/
def sitePackagesKey (lf : List Char) : List Char :=
  ("site-packages").data ++
    (splitOnPatAux 's' (("ite-packages").data) [] lf).getLastD []

/-- The pip-licenses entry loop (source lines 357–367). The lookup
`project_dictionary["LicenseFile"]` on line 365 is unguarded: an entry
without that key raises `KeyError`, which no handler in the pip section
catches. `deriveDates` stands for
`parse_project_author_year_and_project_year_from_license`, which reads the
on-disk license file; it returns `(author_year, year)`. -/
def pipCollect
    (deriveDates : List Char → Option (List Char) × Option (List Char))
    (store : MergeStore) : List PipProject → Except (List Char) MergeStore
  | [] => .ok store
  | e :: rest =>
    match e.licenseFileValue with
    | none => .error (("KeyError: LicenseFile").data)
    | some lf =>
      pipCollect deriveDates
        (storeInsert store (sitePackagesKey lf)
          (.inlineEntry
            ⟨e.nameValue, e.authorValue, e.licenseValue,
              (deriveDates lf).2, (deriveDates lf).1, none⟩))
        rest

/-! ## Merge-store lemmas -/

/-- How many stanzas a serialization pass would emit for the key `k`:
the number of bindings of `k` in the store's iteration order. -/
def countKey (k : List Char) : List (List Char) → Nat
  | [] => 0
  | x :: rest => (if x = k then 1 else 0) + countKey k rest

theorem countKey_eq_zero_of_not_mem (k : List Char) (l : List (List Char))
    (h : k ∉ l) : countKey k l = 0 := by
  induction l with
  | nil => rfl
  | cons x rest ih =>
    have hx : x ≠ k := fun hcon => h (by simp [hcon])
    simp only [countKey, if_neg hx, ih (fun hcon => h (by simp [hcon]))]

theorem countKey_append (k : List Char) (l l' : List (List Char)) :
    countKey k (l ++ l') = countKey k l + countKey k l' := by
  induction l with
  | nil => simp [countKey]
  | cons x rest ih =>
    simp only [List.cons_append, countKey]
    rw [show rest.append l' = rest ++ l' from rfl, ih]
    omega

theorem countKey_eq_one_of_nodup_mem (k : List Char) (l : List (List Char))
    (hd : l.Nodup) (hm : k ∈ l) : countKey k l = 1 := by
  induction l with
  | nil => simp at hm
  | cons x rest ih =>
    rcases List.mem_cons.mp hm with h | h
    · have hnotin : k ∉ rest := by
        rw [h]
        exact (List.nodup_cons.mp hd).1
      simp only [countKey]
      rw [if_pos h.symm, countKey_eq_zero_of_not_mem k rest hnotin]
    · have hx : x ≠ k := by
        intro hcon
        exact (List.nodup_cons.mp hd).1 (hcon ▸ h)
      simp only [countKey, if_neg hx,
        ih (List.nodup_cons.mp hd).2 h]

theorem storeKeys_insert (store : MergeStore) (k : List Char) (v : MergeValue) :
    storeKeys (storeInsert store k v)
      = if k ∈ storeKeys store then storeKeys store
        else storeKeys store ++ [k] := by
  by_cases h : k ∈ storeKeys store
  · rw [if_pos h]
    have hc : k ∈ store.map Prod.fst := h
    simp only [storeInsert, if_pos hc, storeKeys, List.map_map]
    apply List.map_congr_left
    intro p _
    by_cases hp : p.1 = k
    · simp [hp]
    · simp [hp]
  · rw [if_neg h]
    have hc : k ∉ store.map Prod.fst := h
    simp [storeInsert, hc, storeKeys]

theorem storeLookup_map_update (store : MergeStore) (k : List Char)
    (v : MergeValue) (hm : k ∈ storeKeys store) :
    storeLookup k (store.map (fun p => if p.1 = k then (k, v) else p))
      = some v := by
  induction store with
  | nil => simp [storeKeys] at hm
  | cons p rest ih =>
    by_cases hp : p.1 = k
    · simp [storeLookup, hp]
    · have hm' : k ∈ storeKeys rest := by
        simp only [storeKeys, List.map_cons, List.mem_cons] at hm
        rcases hm with h | h
        · exact absurd h.symm hp
        · exact h
      simp only [List.map_cons, if_neg hp]
      rw [storeLookup, if_neg hp]
      exact ih hm'

theorem storeLookup_append_of_not_mem (store : MergeStore) (k : List Char)
    (v : MergeValue) (hm : k ∉ storeKeys store) :
    storeLookup k (store ++ [(k, v)]) = some v := by
  induction store with
  | nil => simp [storeLookup]
  | cons p rest ih =>
    have hp : p.1 ≠ k := by
      intro hcon
      apply hm
      simp only [storeKeys, List.map_cons, List.mem_cons]
      left
      exact hcon.symm
    rw [List.cons_append, storeLookup, if_neg hp]
    refine ih ?_
    intro hcon
    apply hm
    simp only [storeKeys, List.map_cons, List.mem_cons]
    right
    exact hcon

theorem storeLookup_insert (store : MergeStore) (k : List Char)
    (v : MergeValue) : storeLookup k (storeInsert store k v) = some v := by
  by_cases h : k ∈ storeKeys store
  · simp only [storeInsert, if_pos (show k ∈ store.map Prod.fst from h)]
    exact storeLookup_map_update store k v h
  · simp only [storeInsert, if_neg (show k ∉ store.map Prod.fst from h)]
    exact storeLookup_append_of_not_mem store k v h

theorem storeKeys_insert_nodup (store : MergeStore) (k : List Char)
    (v : MergeValue) (h : (storeKeys store).Nodup) :
    (storeKeys (storeInsert store k v)).Nodup := by
  rw [storeKeys_insert]
  by_cases hk : k ∈ storeKeys store
  · simpa [hk] using h
  · simp [hk, List.nodup_append, h]

theorem storeKeys_insert_countKey (store : MergeStore) (k : List Char)
    (v : MergeValue) (h : (storeKeys store).Nodup) :
    countKey k (storeKeys (storeInsert store k v)) = 1 := by
  rw [storeKeys_insert]
  by_cases hk : k ∈ storeKeys store
  · rw [if_pos hk]
    exact countKey_eq_one_of_nodup_mem k _ h hk
  · rw [if_neg hk, countKey_append, countKey_eq_zero_of_not_mem k _ hk]
    simp [countKey]

theorem storeInsertAll_nodup (ops : List (List Char × MergeValue)) :
    (storeKeys (storeInsertAll ops)).Nodup := by
  suffices aux : ∀ st : MergeStore, (storeKeys st).Nodup →
      (storeKeys (ops.foldl (fun st p => storeInsert st p.1 p.2) st)).Nodup by
    exact aux [] (by simp [storeKeys])
  induction ops with
  | nil => intro st h; exact h
  | cons p rest ih =>
    intro st h
    exact ih _ (storeKeys_insert_nodup _ _ _ h)

/-! ## Concrete fixtures used by counterexamples and witnesses -/

/-- A fetcher whose every download fails, as a network outage would. -/
def fetchFailNet : List Char → Except (List Char) Unit :=
  fun _ => .error (("URLError").data)

/-- A folder whose override needs no downloads and has a license file. -/
def folderOk : ThirdpartyFolder :=
  ⟨true, true, [], ("meta1").data, some (("lic1").data)⟩

/-- A folder whose override names one license URL. -/
def folderBadUrl : ThirdpartyFolder :=
  ⟨true, true, [("http-example-license").data], ("meta2").data,
    some (("lic2").data)⟩

/-- A date-derivation collaborator that finds nothing. -/
def ddNone : List Char → Option (List Char) × Option (List Char) :=
  fun _ => (none, none)

/-- A pip-licenses entry that lacks the `LicenseFile` key. -/
def pipNoLicenseFileEntry : PipProject :=
  ⟨("pkg").data, none, ("MIT").data, none⟩

/-! ## The claims -/

/-- Claim C1, counterexample: for an entry with none of
copyright/author_year/author/year, the rendered line is NOT the bare
`Copyright:` (the author was defaulted to the project name first), and the
missing-dates diagnostic does NOT fire — only the missing-author one
does. -/
theorem claim_C1_counterexample :
    (renderEntryCopyright (("pkg").data) none none none none).line
        ≠ ("Copyright:").data
      ∧ (renderEntryCopyright (("pkg").data) none none none none).warnNoYearNorAuthor
        = false
      ∧ (renderEntryCopyright (("pkg").data) none none none none).warnNoAuthor
        = true := by
  decide

/-- Claim C1, amended: an entry with none of the four fields still yields
a stanza, whose `Copyright:` line is `Copyright: ` followed by the project
name (the author defaults to the name), with the missing-author diagnostic
logged and the missing-dates diagnostic never logged. -/
theorem claim_C1_amended (nm : List Char) :
    renderEntryCopyright nm none none none none
      = ⟨("Copyright: ").data ++ nm, true, false⟩ := by
  have hdata : ("Copyright: ").data = ("Copyright:").data ++ [' '] := by decide
  simp [renderEntryCopyright, hdata]

/-- Claim C2, counterexample: with a failing fetcher, a work list holding
one healthy folder and one folder with a license URL produces an error —
the whole run aborts — instead of a best-effort store holding the healthy
folder's entry. -/
theorem claim_C2_counterexample :
    processFolders fetchFailNet [] [folderOk, folderBadUrl]
        = .error (("URLError").data)
      ∧ processFolders fetchFailNet [] [folderOk, folderBadUrl]
        ≠ .ok [((("lic1").data), .metaFileRef (("meta1").data))] := by
  refine ⟨rfl, ?_⟩
  intro h
  rw [show processFolders fetchFailNet [] [folderOk, folderBadUrl]
      = Except.error (("URLError").data) from rfl] at h
  exact Except.noConfusion h

/-- Claim C2, amended: a download failure inside one override's URL
section is uncaught, so it aborts the whole folder loop: every folder
still on the work list is dropped and no merge store is returned. (The
work list is consumed from the end, so the failing folder placed last is
processed first.) -/
theorem claim_C2_amended (fetch : List Char → Except (List Char) Unit)
    (store : MergeStore) (pre : List ThirdpartyFolder) (f : ThirdpartyFolder)
    (e : List Char) (hp : f.folderPresent = true)
    (hm : f.metaFilePresent = true)
    (hf : fetchAllUrls fetch f.licenseUrls = .error e) :
    processFolders fetch store (pre ++ [f]) = .error e := by
  simp only [processFolders, List.reverse_append, List.reverse_cons,
    List.reverse_nil, List.nil_append, List.singleton_append]
  simp [processFolderLoop, hp, hm, hf]

/-- Claim C2, witness for the amended statement at a concrete input. -/
theorem claim_C2_witness :
    processFolders fetchFailNet [] ([folderOk] ++ [folderBadUrl])
      = .error (("URLError").data) :=
  claim_C2_amended fetchFailNet [] [folderOk] folderBadUrl
    (("URLError").data) rfl rfl rfl

/-- Claim C3, counterexample: the NuGet cleanup removes EVERY occurrence
of the literal `Copyright` (Python `str.replace` replaces all), so a later
occurrence of the word is not preserved, contradicting the claim. -/
theorem claim_C3_counterexample :
    nugetCleanCopyright (("Copyright 2020 Copyright Acme").data)
        = ("2020  Acme").data
      ∧ claimedNugetClean (("Copyright 2020 Copyright Acme").data)
        = ("2020 Copyright Acme").data
      ∧ nugetCleanCopyright (("Copyright 2020 Copyright Acme").data)
        ≠ claimedNugetClean (("Copyright 2020 Copyright Acme").data) := by
  refine ⟨by decide, by decide, by decide⟩

/-- Claim C3, amended: the resulting `copyright` field equals the
`Copyright` string with ALL occurrences of the literal `Copyright` removed
(one left-to-right pass), the result whitespace-stripped, and any leading
non-alphanumeric characters then dropped. -/
theorem claim_C3_amended :
    (∀ s, nugetCleanCopyright s
        = (pyStrip (removeAllPat 'C' (("opyright").data) s)).dropWhile
            (fun c => !(isAlnumChar c)))
      ∧ nugetCleanCopyright (("Copyright © 2021 Acme Corp").data)
        = ("2021 Acme Corp").data := by
  refine ⟨fun s => keepFromAlphaAux_false _, by decide⟩

/-- Claim C4: a pip-licenses output list holding an entry without the
`LicenseFile` key makes the collector fail with `KeyError` (the lookup on
source line 365 is unguarded), aborting the run; lists whose entries all
carry the key are processed to completion. -/
theorem claim_C4
    (dd : List Char → Option (List Char) × Option (List Char))
    (store : MergeStore) (entries : List PipProject) :
    ((∃ e ∈ entries, e.licenseFileValue = none) →
        pipCollect dd store entries
          = .error (("KeyError: LicenseFile").data))
      ∧ ((∀ e ∈ entries, e.licenseFileValue ≠ none) →
        ∃ st, pipCollect dd store entries = .ok st) := by
  induction entries generalizing store with
  | nil =>
    refine ⟨?_, ?_⟩
    · rintro ⟨e, he, _⟩
      simp at he
    · intro _
      exact ⟨store, rfl⟩
  | cons e rest ih =>
    refine ⟨?_, ?_⟩
    · rintro ⟨e', he', hn⟩
      rcases List.mem_cons.mp he' with h | h
      · subst h
        simp [pipCollect, hn]
      · cases hlf : e.licenseFileValue with
        | none => simp [pipCollect, hlf]
        | some lf =>
          simp only [pipCollect, hlf]
          exact (ih _).1 ⟨e', h, hn⟩
    · intro hall
      have he := hall e (by simp)
      cases hlf : e.licenseFileValue with
      | none => exact absurd hlf he
      | some lf =>
        simp only [pipCollect, hlf]
        exact (ih _).2 (fun x hx => hall x (by simp [hx]))

/-- Claim C4, witness: one entry without `LicenseFile` aborts the
collector with the `KeyError`. -/
theorem claim_C4_witness :
    pipCollect ddNone [] [pipNoLicenseFileEntry]
      = .error (("KeyError: LicenseFile").data) :=
  (claim_C4 ddNone [] [pipNoLicenseFileEntry]).1
    ⟨pipNoLicenseFileEntry, by simp, rfl⟩

/-- Claim C5: the extraction returns, in line order, the stripped
remainders after the `)` of exactly those lines whose stripped, lowered
form starts with `copyright` and which contain exactly one `)`; lines with
zero or two-or-more `)` contribute nothing; a text whose only copyright
line is `Copyright (c) 2020 Jane Doe` yields exactly that fragment. -/
theorem claim_C5 :
    (∀ lines, parse_license_file_copyright_lines lines
        = (lines.filter isCopyrightFragmentLine).map extractedFragment)
      ∧ parse_license_file_copyright_lines
          [("MIT License").data, ("").data,
            ("Copyright (c) 2020 Jane Doe").data, ("").data,
            ("Permission is hereby granted, free of charge").data]
        = [("2020 Jane Doe").data]
      ∧ parse_license_file_copyright_lines
          [("Copyright (c) 2020 (Jane) Doe").data] = []
      ∧ parse_license_file_copyright_lines
          [("Copyright 2020 Jane Doe").data] = [] := by
  refine ⟨parse_license_file_copyright_lines_eq, by decide, by decide,
    by decide⟩

/-- Claim C6: `parse_copyright_years` returns the accepted year tokens
together with a flag that is true exactly when every accepted year lies in
`[1900, currentYear]`; `Copyright 1899-2030 X` yields both years with the
flag false, and `Copyright 2019-2021 X` yields both years with the flag
true once the current year has reached 2021. -/
theorem claim_C6 (currentYear : Nat) :
    (∀ s, (parse_copyright_years currentYear s).2
        = (parse_copyright_years currentYear s).1.all
            (fun y => decide (1900 ≤ yearVal y ∧ yearVal y ≤ currentYear)))
      ∧ (parse_copyright_years currentYear
            (("Copyright 1899-2030 X").data)).1
          = [("1899").data, ("2030").data]
      ∧ (parse_copyright_years currentYear
            (("Copyright 1899-2030 X").data)).2 = false
      ∧ (2021 ≤ currentYear →
          parse_copyright_years currentYear (("Copyright 2019-2021 X").data)
            = ([("2019").data, ("2021").data], true)) := by
  have htok : yearTokens (("Copyright 1899-2030 X").data)
      = [("1899").data, ("2030").data] := by decide
  have htok2 : yearTokens (("Copyright 2019-2021 X").data)
      = [("2019").data, ("2021").data] := by decide
  have hv99 : yearVal (("1899").data) = 1899 := by decide
  have hv19 : yearVal (("2019").data) = 2019 := by decide
  have hv21 : yearVal (("2021").data) = 2021 := by decide
  refine ⟨?_, ?_, ?_, ?_⟩
  · intro s
    simp [parse_copyright_years, allYearsValidLoop_eq_all]
  · exact htok
  · show allYearsValidLoop currentYear
        (yearTokens (("Copyright 1899-2030 X").data)) = false
    rw [htok]
    simp [allYearsValidLoop, hv99]
  · intro h
    have hc1 : (yearVal (("2019").data) < 1900
        || currentYear < yearVal (("2019").data)) = false := by
      rw [hv19]
      simp
      omega
    have hc2 : (yearVal (("2021").data) < 1900
        || currentYear < yearVal (("2021").data)) = false := by
      rw [hv21]
      simp
      omega
    show (yearTokens (("Copyright 2019-2021 X").data),
        allYearsValidLoop currentYear
          (yearTokens (("Copyright 2019-2021 X").data)))
      = ([("2019").data, ("2021").data], true)
    rw [htok2]
    simp [allYearsValidLoop, hc1, hc2]

/-- Claim C6, witness at `currentYear = 2026`. -/
theorem claim_C6_witness :
    parse_copyright_years 2026 (("Copyright 2019-2021 X").data)
      = ([("2019").data, ("2021").data], true) :=
  (claim_C6 2026).2.2.2 (by norm_num)

/-- Claim C7: the accepted year tokens are exactly the maximal terminated
digit runs of length exactly 4; hence a maximal run longer than 4 digits
never contributes a token, while a separate valid 4-digit year still
does. -/
theorem claim_C7 :
    (∀ s, yearTokens s = (digitRuns s).filter (fun r => r.length == 4))
      ∧ (∀ s run, run ∈ digitRuns s → 4 < run.length →
          run ∉ yearTokens s)
      ∧ yearTokens (("ph 123456789 and 2020 x").data) = [("2020").data] := by
  refine ⟨yearTokens_eq_digitRuns, ?_, by decide⟩
  intro s run _ hlen hcontra
  rw [yearTokens_eq_digitRuns] at hcontra
  have h4 := List.of_mem_filter hcontra
  simp only [beq_iff_eq] at h4
  omega

/-- Claim C7, witness: the 9-digit run of a concrete input is a maximal
digit run longer than 4 and is absent from the year list. -/
theorem claim_C7_witness :
    ("123456789").data ∉ yearTokens (("ph 123456789 and 2020 x").data) :=
  claim_C7.2.1 (("ph 123456789 and 2020 x").data) (("123456789").data)
    (by decide) (by decide)

/-- Claim C8: when the `copyright` field is present the serializer writes
it with escape sequences unescaped, prepending `Copyright: ` exactly when
the raw field does not already start with that prefix; a field already of
the form `Copyright: 2021 Acme` round-trips without a double prefix. -/
theorem claim_C8 :
    (∀ nm y a ay c, startsWithChars (("Copyright: ").data) c = true →
        (renderEntryCopyright nm y a ay (some c)).line = replN c)
      ∧ (∀ nm y a ay c, startsWithChars (("Copyright: ").data) c = false →
        (renderEntryCopyright nm y a ay (some c)).line
          = ("Copyright: ").data ++ replN c)
      ∧ (renderEntryCopyright (("Acme").data) none none none
          (some (("Copyright: 2021 Acme").data))).line
        = ("Copyright: 2021 Acme").data := by
  refine ⟨?_, ?_, by decide⟩
  · intro nm y a ay c h
    simp [renderEntryCopyright, h]
  · intro nm y a ay c h
    simp [renderEntryCopyright, h]

/-- Claim C8, witness: both prefix cases at concrete fields. -/
theorem claim_C8_witness :
    (renderEntryCopyright (("n").data) none none none
        (some (("Copyright: 2021 Acme").data))).line
      = replN (("Copyright: 2021 Acme").data)
    ∧ (renderEntryCopyright (("n").data) none none none
        (some (("2021 Acme").data))).line
      = ("Copyright: ").data ++ replN (("2021 Acme").data) :=
  ⟨claim_C8.1 (("n").data) none none none
      (("Copyright: 2021 Acme").data) (by decide),
    claim_C8.2.1 (("n").data) none none none
      (("2021 Acme").data) (by decide)⟩

/-- Claim C9: merge-store keys stay unique under insertion; inserting a
present key replaces the value (found by lookup) without error, a present
key keeps its position while a fresh key is appended (iteration order is
insertion order), exactly one binding of the key remains (one stanza at
serialization), and any sequence of insertions from the empty store keeps
the keys unique. -/
theorem claim_C9 (store : MergeStore) (k : List Char) (v : MergeValue)
    (h : (storeKeys store).Nodup) :
    storeLookup k (storeInsert store k v) = some v
      ∧ storeKeys (storeInsert store k v)
        = (if k ∈ storeKeys store then storeKeys store
            else storeKeys store ++ [k])
      ∧ (storeKeys (storeInsert store k v)).Nodup
      ∧ countKey k (storeKeys (storeInsert store k v)) = 1
      ∧ ∀ ops, (storeKeys (storeInsertAll ops)).Nodup :=
  ⟨storeLookup_insert store k v, storeKeys_insert store k v,
    storeKeys_insert_nodup store k v h,
    storeKeys_insert_countKey store k v h,
    storeInsertAll_nodup⟩

/-- Claim C9, witness: replacing the value under an existing key in a
concrete one-entry store. -/
theorem claim_C9_witness :
    storeLookup (("a").data)
        (storeInsert [((("a").data), .metaFileRef (("m1").data))]
          (("a").data) (.metaFileRef (("m2").data)))
      = some (.metaFileRef (("m2").data))
    ∧ countKey (("a").data)
        (storeKeys
          (storeInsert [((("a").data), .metaFileRef (("m1").data))]
            (("a").data) (.metaFileRef (("m2").data)))) = 1 := by
  have h := claim_C9 [((("a").data), .metaFileRef (("m1").data))]
    (("a").data) (.metaFileRef (("m2").data)) (by decide)
  exact ⟨h.1, h.2.2.2.1⟩

/-- Claim C10: a digit run that ends the input is never flushed into the
year list (flushing happens only at a following non-digit character); in
particular an input ending in `2020` yields a year list without the final
`2020` token. -/
theorem claim_C10 (s run : List Char) (h : ∀ c ∈ run, c.isDigit = true) :
    yearTokens (s ++ run) = yearTokens s
      ∧ ("2020").data ∉ yearTokens (("Copyright 2020").data) :=
  ⟨yearTokens_append_digits s run h, by decide⟩

/-- Claim C10, witness: appending the digits `2020` to `Copyright `
contributes nothing to the year list. -/
theorem claim_C10_witness :
    yearTokens (("Copyright ").data ++ ("2020").data)
      = yearTokens (("Copyright ").data) :=
  (claim_C10 (("Copyright ").data) (("2020").data) (by decide)).1

end CopyrightGenerator
